import Mathlib

/-!
# sections-transformer: the term-to-section transform and the HTTP handlers

A shallow embedding of `handlers.go` and of the transform exercised by
`transformer_test.go`, together with the library behaviour both rely on
(string bytes, base64, MD5, name-based UUIDs, `strconv.Itoa`, the JSON string
encoder and the `http.ResponseWriter` interface).

Go strings are embedded as `String` (so they hold valid UTF-8 text), byte slices
as `List Nat` with every element below 256, `int` as `Int`, and `error` as
`Option String` (`none` is `nil`).  Logging calls have no part in the response
and are left out.
-/

namespace SectionsTransformer


/-! ## Strings as bytes -/

/-- UTF-8 bytes of one character, as the conversion `[]byte(s)` lays them out. -/
def utf8EncodeChar (c : Char) : List Nat :=
  let v := c.toNat
  if v < 0x80 then [v]
  else if v < 0x800 then [0xC0 + v / 64, 0x80 + v % 64]
  else if v < 0x10000 then [0xE0 + v / 4096, 0x80 + v / 64 % 64, 0x80 + v % 64]
  else [0xF0 + v / 262144, 0x80 + v / 4096 % 64, 0x80 + v / 64 % 64, 0x80 + v % 64]

/-- Bytes of a list of characters. -/
def utf8EncodeChars : List Char → List Nat
  | [] => []
  | c :: cs => utf8EncodeChar c ++ utf8EncodeChars cs

/-- The conversion `[]byte(s)`. -/
def bytesOf (s : String) : List Nat := utf8EncodeChars s.data

/-! ## encoding/base64, `StdEncoding` -/

/-- Alphabet of `base64.StdEncoding`. -/
def encodeStd : List Char :=
  "ABCDEFGHIJKLMNOPQRSTUVWXYZabcdefghijklmnopqrstuvwxyz0123456789+/".data

/-- Alphabet lookup `enc.encode[i & 0x3F]`. -/
def encChar (i : Nat) : Char := encodeStd.getD (i % 64) 'A'

/-- Body of `(*Encoding).Encode` with `StdPadding`: full 3-byte groups give four
characters, a remainder of one or two bytes is padded with `=`. -/
def base64Encode : List Nat → List Char
  | [] => []
  | [a] =>
    let val := a * 65536
    [encChar (val / 262144), encChar (val / 4096), '=', '=']
  | [a, b] =>
    let val := a * 65536 + b * 256
    [encChar (val / 262144), encChar (val / 4096), encChar (val / 64), '=']
  | a :: b :: c :: rest =>
    let val := a * 65536 + b * 256 + c
    encChar (val / 262144) :: encChar (val / 4096) :: encChar (val / 64) :: encChar val
      :: base64Encode rest

/-- The call `base64.StdEncoding.EncodeToString([]byte(s))`. -/
def encodeToString (s : String) : String := ⟨base64Encode (bytesOf s)⟩

/-! ## crypto/md5 -/

/-- Per-step left-rotation amounts of MD5. -/
def md5S : List Nat :=
  [7, 12, 17, 22, 7, 12, 17, 22, 7, 12, 17, 22, 7, 12, 17, 22,
   5, 9, 14, 20, 5, 9, 14, 20, 5, 9, 14, 20, 5, 9, 14, 20,
   4, 11, 16, 23, 4, 11, 16, 23, 4, 11, 16, 23, 4, 11, 16, 23,
   6, 10, 15, 21, 6, 10, 15, 21, 6, 10, 15, 21, 6, 10, 15, 21]

/-- Per-step additive constants of MD5. -/
def md5K : List Nat :=
  [0xd76aa478, 0xe8c7b756, 0x242070db, 0xc1bdceee,
   0xf57c0faf, 0x4787c62a, 0xa8304613, 0xfd469501,
   0x698098d8, 0x8b44f7af, 0xffff5bb1, 0x895cd7be,
   0x6b901122, 0xfd987193, 0xa679438e, 0x49b40821,
   0xf61e2562, 0xc040b340, 0x265e5a51, 0xe9b6c7aa,
   0xd62f105d, 0x02441453, 0xd8a1e681, 0xe7d3fbc8,
   0x21e1cde6, 0xc33707d6, 0xf4d50d87, 0x455a14ed,
   0xa9e3e905, 0xfcefa3f8, 0x676f02d9, 0x8d2a4c8a,
   0xfffa3942, 0x8771f681, 0x6d9d6122, 0xfde5380c,
   0xa4beea44, 0x4bdecfa9, 0xf6bb4b60, 0xbebfbc70,
   0x289b7ec6, 0xeaa127fa, 0xd4ef3085, 0x04881d05,
   0xd9d4d039, 0xe6db99e5, 0x1fa27cf8, 0xc4ac5665,
   0xf4292244, 0x432aff97, 0xab9423a7, 0xfc93a039,
   0x655b59c3, 0x8f0ccc92, 0xffeff47d, 0x85845dd1,
   0x6fa87e4f, 0xfe2ce6e0, 0xa3014314, 0x4e0811a1,
   0xf7537e82, 0xbd3af235, 0x2ad7d2bb, 0xeb86d391]

/-- The four 32-bit chaining words of MD5. -/
structure Md5State where
  a : Nat
  b : Nat
  c : Nat
  d : Nat
  deriving DecidableEq, Repr

/-- Initial chaining value. -/
def md5Init : Md5State := ⟨0x67452301, 0xefcdab89, 0x98badcfe, 0x10325476⟩

/-- 32-bit rotate left. -/
def rotl32 (x n : Nat) : Nat := ((x <<< n) ||| (x >>> (32 - n))) % 2 ^ 32

/-- 32-bit complement. -/
def not32 (x : Nat) : Nat := x ^^^ 0xffffffff

/-- One of the 64 steps of the MD5 compression function on message words `m`. -/
def md5Step (m : List Nat) (st : Md5State) (i : Nat) : Md5State :=
  let f :=
    if i < 16 then (st.b &&& st.c) ||| (not32 st.b &&& st.d)
    else if i < 32 then (st.d &&& st.b) ||| (not32 st.d &&& st.c)
    else if i < 48 then st.b ^^^ st.c ^^^ st.d
    else st.c ^^^ (st.b ||| not32 st.d)
  let g :=
    if i < 16 then i
    else if i < 32 then (5 * i + 1) % 16
    else if i < 48 then (3 * i + 5) % 16
    else (7 * i) % 16
  let x := (st.a + f + md5K.getD i 0 + m.getD g 0) % 2 ^ 32
  ⟨st.d, (st.b + rotl32 x (md5S.getD i 0)) % 2 ^ 32, st.b, st.c⟩

/-- Little-endian 32-bit word number `j` of a block. -/
def wordAt (block : List Nat) (j : Nat) : Nat :=
  block.getD (4 * j) 0 + 256 * block.getD (4 * j + 1) 0
    + 65536 * block.getD (4 * j + 2) 0 + 16777216 * block.getD (4 * j + 3) 0

/-- Compression of one 64-byte block into the chaining value. -/
def md5Block (st : Md5State) (block : List Nat) : Md5State :=
  let m := (List.range 16).map (wordAt block)
  let r := (List.range 64).foldl (md5Step m) st
  ⟨(st.a + r.a) % 2 ^ 32, (st.b + r.b) % 2 ^ 32, (st.c + r.c) % 2 ^ 32, (st.d + r.d) % 2 ^ 32⟩

/-- Little-endian bytes of a word, `count` of them. -/
def leBytes : Nat → Nat → List Nat
  | 0, _ => []
  | count + 1, w => w % 256 :: leBytes count (w / 256)

/-- Message padding: a `0x80` byte, zeros up to 56 modulo 64, then the bit
length as eight little-endian bytes. -/
def md5Pad (msg : List Nat) : List Nat :=
  msg ++ 0x80 :: List.replicate ((119 - msg.length % 64) % 64) 0
    ++ leBytes 8 (8 * msg.length % 2 ^ 64)

/-- The digest `md5.Sum(msg)`: sixteen bytes. -/
def md5Sum (msg : List Nat) : List Nat :=
  let padded := md5Pad msg
  let st := (List.range (padded.length / 64)).foldl
    (fun st i => md5Block st ((padded.drop (64 * i)).take 64)) md5Init
  leBytes 4 st.a ++ leBytes 4 st.b ++ leBytes 4 st.c ++ leBytes 4 st.d

/-! ## The uuid package -/

/-- Lower-case hexadecimal digit table of `encoding/hex`. -/
def hextable : List Char := "0123456789abcdef".data

/-- Table lookup `hextable[n]`. -/
def hexDigit (n : Nat) : Char := hextable.getD n '0'

/-- The call `hex.Encode`: two digits per byte, high nibble first. -/
def hexEncode : List Nat → List Char
  | [] => []
  | v :: rest => hexDigit (v / 16) :: hexDigit (v % 16) :: hexEncode rest

/-- The call `uuid.NewHash(md5.New(), space, data, 3)`, that is `uuid.NewMD5`: hash
the namespace bytes followed by the data, keep sixteen bytes, then stamp the
version nibble and the RFC 4122 variant bits. -/
def NewMD5 (space data : List Nat) : List Nat :=
  let s := (md5Sum (space ++ data)).take 16
  let s := s.set 6 ((s.getD 6 0 &&& 0x0f) ||| 0x30)
  s.set 8 ((s.getD 8 0 &&& 0x3f) ||| 0x80)

/-- The method `UUID.String`: the 8-4-4-4-12 text form, empty unless there are sixteen bytes. -/
def uuidString (u : List Nat) : String :=
  if u.length = 16 then
    ⟨hexEncode (u.take 4) ++ '-' :: hexEncode ((u.drop 4).take 2) ++ '-' ::
      hexEncode ((u.drop 6).take 2) ++ '-' :: hexEncode ((u.drop 8).take 2) ++ '-' ::
      hexEncode (u.drop 10)⟩
  else ""

/-! ## The data model -/

/-- The raw taxonomy term (`term` in the test). -/
structure term where
  CanonicalName : String
  RawID : String
  deriving DecidableEq, Repr

/-- The identifiers a section is also known by. -/
structure alternativeIdentifiers where
  TME : List String
  Uuids : List String
  deriving DecidableEq, Repr

/-- The section entity (`section` in the test). -/
structure Section where
  UUID : String
  PrefLabel : String
  AlternativeIdentifiers : alternativeIdentifiers
  Type_ : String
  deriving DecidableEq, Repr

/-- Modelled from the spec: the construction of the `tme` identifier, a part of
the transform that is not among the sources.  The spec describes the identifier
as the base64 form of `rawID`, a `-` delimiter and the taxonomy name; the value
`TestTransform` expects fixes the layout: each of the two components is
base64-encoded on its own and the delimiter joins the two encodings. -/
def buildTmeIdentifier (rawID taxonomyName : String) : String :=
  encodeToString rawID ++ "-" ++ encodeToString taxonomyName

/-- Modelled from the spec: `transformSection` is not among the sources, only
`TestTransform` is.  The label is copied from the canonical name, the id is the
hash-based UUID of the TME identifier, `tme` and `uuids` are one-element lists and
the type is the fixed literal.  The hash scheme is the one the test's expected id
determines: MD5 name-based (version 3) over the identifier, with the empty
namespace value `uuid.UUID{}`. -/
def transformSection (tmeTerm : term) (taxonomyName : String) : Section :=
  let tmeIdentifier := buildTmeIdentifier tmeTerm.RawID taxonomyName
  let uuid := uuidString (NewMD5 [] (bytesOf tmeIdentifier))
  { UUID := uuid
    PrefLabel := tmeTerm.CanonicalName
    AlternativeIdentifiers := { TME := [tmeIdentifier], Uuids := [uuid] }
    Type_ := "Section" }

/-! ## strconv -/

/-- Decimal digits of `u`, most significant first, prepended to `acc`; `fuel`
bounds the number of digits produced. -/
def formatDigits : Nat → Nat → List Char → List Char
  | 0, _, acc => acc
  | fuel + 1, u, acc =>
    if u < 10 then Char.ofNat (48 + u) :: acc
    else formatDigits fuel (u / 10) (Char.ofNat (48 + u % 10) :: acc)

/-- The call `strconv.Itoa(i)`, that is `FormatInt(int64(i), 10)`: an optional minus sign
followed by the decimal digits of the magnitude. -/
def Itoa (i : Int) : String :=
  if i < 0 then ⟨'-' :: formatDigits (i.natAbs + 1) i.natAbs []⟩
  else ⟨formatDigits (i.natAbs + 1) i.natAbs []⟩

/-- Value of a run of ASCII decimal digits read left to right from the
accumulator `acc`; `none` at the first byte that is not a digit. -/
def parseDigits : List Nat → Nat → Option Nat
  | [], acc => some acc
  | b :: rest, acc =>
    if 48 ≤ b ∧ b ≤ 57 then parseDigits rest (10 * acc + (b - 48)) else none

/-- A response body read as a decimal integer: an optional `-`, then at least
one digit, nothing else. -/
def parseDecimal : List Nat → Option Int
  | [] => none
  | b :: rest =>
    if b = 45 then
      if rest.isEmpty then none else (parseDigits rest 0).map fun n => -Int.ofNat n
    else (parseDigits (b :: rest) 0).map Int.ofNat

/-! ## net/http: the response writer
`http.ResponseWriter` is an interface; the handlers are run against a writer
that records, in order, every call it receives.  The result of each `Write` is
scripted in the writer, so that any sequence of successes and failures can be
played. -/

/-- One call received by a response writer. -/
inductive Call where
  /-- The call `Header().Add(key, value)`. -/
  | headerAdd (key value : String)
  /-- The call `WriteHeader(statusCode)`. -/
  | writeHeader (statusCode : Nat)
  /-- The call `Write(p)`, with the `n` and `err` it returned. -/
  | write (p : List Nat) (n : Nat) (err : Option String)
  deriving DecidableEq, Repr

/-- A recording response writer: the calls received so far, oldest first, and
the outcomes of the coming `Write` calls (`none`: all bytes accepted;
`some (n, e)`: at most `n` bytes accepted, then error `e`; past the end of
the script every write succeeds). -/
structure ResponseWriter where
  calls : List Call
  pending : List (Option (Nat × String))
  deriving DecidableEq, Repr

namespace ResponseWriter

/-- A writer as the server hands it to a handler: nothing called yet. -/
def fresh (pending : List (Option (Nat × String))) : ResponseWriter := ⟨[], pending⟩

/-- The call `w.Header().Add(key, value)`. -/
def HeaderAdd (w : ResponseWriter) (key value : String) : ResponseWriter :=
  { w with calls := w.calls ++ [Call.headerAdd key value] }

/-- The call `w.WriteHeader(statusCode)`. -/
def WriteHeader (w : ResponseWriter) (statusCode : Nat) : ResponseWriter :=
  { w with calls := w.calls ++ [Call.writeHeader statusCode] }

/-- The call `w.Write(p)`: the writer afterwards, and the returned `err`. -/
def Write (w : ResponseWriter) (p : List Nat) : ResponseWriter × Option String :=
  match w.pending with
  | [] => (⟨w.calls ++ [Call.write p p.length none], []⟩, none)
  | none :: rest => (⟨w.calls ++ [Call.write p p.length none], rest⟩, none)
  | some (n, e) :: rest => (⟨w.calls ++ [Call.write p (min n p.length) (some e)], rest⟩, some e)

/-- Body bytes a list of calls put on the wire. -/
def bodyOf : List Call → List Nat
  | [] => []
  | Call.write p n _ :: rest => p.take n ++ bodyOf rest
  | _ :: rest => bodyOf rest

/-- Status codes a list of calls handed to `WriteHeader`, in order. -/
def codesOf : List Call → List Nat
  | [] => []
  | Call.writeHeader c :: rest => c :: codesOf rest
  | _ :: rest => codesOf rest

/-- Header entries a list of calls added, in order. -/
def headersOf : List Call → List (String × String)
  | [] => []
  | Call.headerAdd k v :: rest => (k, v) :: headersOf rest
  | _ :: rest => headersOf rest

/-- Status of the response as net/http sends it: the code of the first
`WriteHeader`, or 200 when a `Write` comes first or nothing is called. -/
def statusOf : List Call → Nat
  | [] => 200
  | Call.writeHeader c :: _ => c
  | Call.write _ _ _ :: _ => 200
  | Call.headerAdd _ _ :: rest => statusOf rest

/-- Body bytes written so far. -/
def body (w : ResponseWriter) : List Nat := bodyOf w.calls

/-- Status codes written so far. -/
def statusCodes (w : ResponseWriter) : List Nat := codesOf w.calls

/-- Header entries added so far. -/
def header (w : ResponseWriter) : List (String × String) := headersOf w.calls

/-- Status the response carries. -/
def status (w : ResponseWriter) : Nat := statusOf w.calls

end ResponseWriter

/-! ## encoding/json -/

/-- Characters the encoder copies unescaped when HTML escaping is on
(`htmlSafeSet`): printable ASCII and DEL, except the double quote, `&`, `<`,
`>` and the backslash. -/
def htmlSafeSet (c : Char) : Bool :=
  decide (0x20 ≤ c.toNat ∧ c.toNat < 0x80 ∧ c.toNat ≠ 34 ∧ c.toNat ≠ 38 ∧ c.toNat ≠ 60
    ∧ c.toNat ≠ 62 ∧ c.toNat ≠ 92)

/-- Encoding of one character inside a JSON string (`appendString` with
`escapeHTML` set, on valid UTF-8). -/
def appendChar (c : Char) : List Char :=
  let b := c.toNat
  if b < 0x80 then
    if htmlSafeSet c then [c]
    else if b = 92 ∨ b = 34 then [Char.ofNat 92, c]
    else if b = 8 then [Char.ofNat 92, 'b']
    else if b = 12 then [Char.ofNat 92, 'f']
    else if b = 10 then [Char.ofNat 92, 'n']
    else if b = 13 then [Char.ofNat 92, 'r']
    else if b = 9 then [Char.ofNat 92, 't']
    else [Char.ofNat 92, 'u', '0', '0', hexDigit (b / 16), hexDigit (b % 16)]
  else if b = 0x2028 ∨ b = 0x2029 then
    [Char.ofNat 92, 'u', '2', '0', '2', hexDigit (b % 16)]
  else [c]

/-- Escaped characters of a string. -/
def appendChars : List Char → List Char
  | [] => []
  | c :: cs => appendChar c ++ appendChars cs

/-- The JSON string literal for `s`, quotes included. -/
def appendString (s : String) : String :=
  ⟨Char.ofNat 34 :: (appendChars s.data ++ [Char.ofNat 34])⟩

/-- JSON text of the handler's local `sectionID` struct with its one field
tagged `id`. -/
def marshalSectionID (id : String) : String :=
  "\x7b\"id\":" ++ appendString id ++ "\x7d"

/-- A `json.Encoder` bound to a writer: it keeps the first write error. -/
structure Encoder where
  err : Option String
  deriving DecidableEq, Repr

/-- The call `json.NewEncoder(writer)`. -/
def NewEncoder : Encoder := ⟨none⟩

/-- The call `enc.Encode(v)`, for a value whose `json.Marshal` result is
`marshal v`: after an earlier write error nothing is written; otherwise the
JSON text and a newline go to the writer in one `Write`. -/
def Encoder.Encode {α : Type} (marshal : α → Except String String) (enc : Encoder)
    (w : ResponseWriter) (v : α) : Encoder × ResponseWriter × Option String :=
  match enc.err with
  | some e => (enc, w, some e)
  | none =>
    match marshal v with
    | Except.error e => (enc, w, some e)
    | Except.ok text =>
      match w.Write (bytesOf text ++ [10]) with
      | (w1, some e) => (⟨some e⟩, w1, some e)
      | (w1, none) => (enc, w1, none)

/-! ## handlers.go -/

/-- The `sectionService` interface over a service state `σ`; `α` is the type of
the value `getSections` hands back.  Its implementation is not part of the
embedding: every method is a parameter. -/
structure sectionService (σ α : Type) where
  getSections : σ → α × Bool
  getSectionByUUID : σ → String → Section × Bool
  checkConnectivity : σ → Option String
  getSectionCount : σ → Int
  getSectionIds : σ → List String
  reload : σ → Option String × σ

/-- The handler value: it holds the service. -/
structure sectionsHandler (σ α : Type) where
  service : sectionService σ α

/-- The part of a request the handlers read: the route variables of `mux.Vars`. -/
structure Request where
  vars : List (String × String)
  deriving DecidableEq, Repr

/-- Map lookup `vars[key]`: the empty string when the key is absent. -/
def Request.var (req : Request) (key : String) : String :=
  match req.vars.find? (fun kv => kv.1 = key) with
  | some kv => kv.2
  | none => ""

/-- Method `checker`. -/
def sectionsHandler.checker {σ α : Type} (h : sectionsHandler σ α) (s : σ) :
    String × Option String :=
  let err := h.service.checkConnectivity s
  if err = none then ("Connectivity to TME is ok", err)
  else ("Error connecting to TME", err)

/-- Function `writeJSONError`. -/
def writeJSONError (w : ResponseWriter) (errorMsg : String) (statusCode : Nat) :
    ResponseWriter :=
  let w := w.WriteHeader statusCode
  (w.Write (bytesOf ("\x7b\"message\": \"" ++ errorMsg ++ "\"\x7d") ++ [10])).1

/-- Function `writeJSONResponse`, for an `obj` whose JSON text is `marshal obj`. -/
def writeJSONResponse {β : Type} (marshal : β → Except String String) (obj : β)
    (found : Bool) (writer : ResponseWriter) : ResponseWriter :=
  let writer := writer.HeaderAdd "Content-Type" "application/json"
  if !found then writer.WriteHeader 404
  else
    match NewEncoder.Encode marshal writer obj with
    | (_, writer, some err) => writeJSONError writer err 500
    | (_, writer, none) => writer

/-- Handler `getSections`. -/
def sectionsHandler.getSections {σ α : Type} (h : sectionsHandler σ α)
    (marshal : α → Except String String) (s : σ) (writer : ResponseWriter)
    (_req : Request) : ResponseWriter :=
  let (obj, found) := h.service.getSections s
  writeJSONResponse marshal obj found writer

/-- Handler `getSectionByUUID`. -/
def sectionsHandler.getSectionByUUID {σ α : Type} (h : sectionsHandler σ α)
    (marshal : Section → Except String String) (s : σ) (writer : ResponseWriter)
    (req : Request) : ResponseWriter :=
  let uuid := req.var "uuid"
  let (obj, found) := h.service.getSectionByUUID s uuid
  writeJSONResponse marshal obj found writer

/-- Handler `GoodToGo`. -/
def sectionsHandler.GoodToGo {σ α : Type} (h : sectionsHandler σ α) (s : σ)
    (writer : ResponseWriter) (_req : Request) : ResponseWriter :=
  if (h.checker s).2 ≠ none then writer.WriteHeader 503 else writer

/-- Handler `getCount`. -/
def sectionsHandler.getCount {σ α : Type} (h : sectionsHandler σ α) (s : σ)
    (writer : ResponseWriter) (_req : Request) : ResponseWriter :=
  let count := h.service.getSectionCount s
  match writer.Write (bytesOf (Itoa count)) with
  | (writer, some _) => writer.WriteHeader 500
  | (writer, none) => writer

/-- One turn of the loop of `getIds`: encode the id, carry on whatever the result. -/
def getIdsStep (st : Encoder × ResponseWriter) (id : String) : Encoder × ResponseWriter :=
  let r := st.1.Encode (fun i => Except.ok (marshalSectionID i)) st.2 id
  (r.1, r.2.1)

/-- Handler `getIds`. -/
def sectionsHandler.getIds {σ α : Type} (h : sectionsHandler σ α) (s : σ)
    (writer : ResponseWriter) (_req : Request) : ResponseWriter :=
  let ids := h.service.getSectionIds s
  let writer := writer.HeaderAdd "Content-Type" "text/plain"
  if ids.length = 0 then writer.WriteHeader 200
  else (ids.foldl getIdsStep (NewEncoder, writer)).2

/-- Handler `reload`: the service state after the reload, and the response. -/
def sectionsHandler.reload {σ α : Type} (h : sectionsHandler σ α) (s : σ)
    (writer : ResponseWriter) (_req : Request) : σ × ResponseWriter :=
  let (err, s1) := h.service.reload s
  if err ≠ none then (s1, writer.WriteHeader 500) else (s1, writer)

/-! ## Reading a UUID in text form -/

/-- Lower-case hexadecimal digit. -/
def isLowerHex (c : Char) : Bool := hextable.contains c

/-- Value of a lower-case hexadecimal digit. -/
def hexVal (c : Char) : Option Nat :=
  if isLowerHex c then some (hextable.indexOf c) else none

/-- Consume `n` lower-case hexadecimal digits; the rest of the input, or `none`. -/
def hexRun : Nat → List Char → Option (List Char)
  | 0, cs => some cs
  | _ + 1, [] => none
  | n + 1, c :: cs => if isLowerHex c then hexRun n cs else none

/-- Consume one `-`; the rest of the input, or `none`. -/
def dash : List Char → Option (List Char)
  | [] => none
  | c :: cs => if c = '-' then some cs else none

/-- Canonical text form of a UUID: hexadecimal groups of 8, 4, 4, 4 and 12
digits separated by single dashes, and nothing more. -/
def isCanonicalUUID (s : String) : Bool :=
  (hexRun 8 s.data >>= dash >>= hexRun 4 >>= dash >>= hexRun 4 >>= dash >>= hexRun 4
    >>= dash >>= hexRun 12) = some []

/-- Version field of a UUID in text form: the value of the first digit of
the third group. -/
def uuidVersion (s : String) : Option Nat :=
  match s.data.drop 14 with
  | [] => none
  | c :: _ => hexVal c

/-! ## Sample services -/

/-- A service over the trivial state that finds nothing, cannot reach TME, cannot
reload, and counts twelve sections under two ids. -/
def downService : sectionService Unit (List Section) :=
  { getSections := fun _ => ([], false)
    getSectionByUUID := fun _ _ => (⟨"", "", ⟨[], []⟩, ""⟩, false)
    checkConnectivity := fun _ => some "connection refused"
    getSectionCount := fun _ => 12
    getSectionIds := fun _ => ["adb4f804-c3b6-3eca-8708-5edeec653a27", "a\"b"]
    reload := fun _ => (some "connection refused", ()) }

/-- A service over the trivial state that finds its sections, reaches TME,
reloads without error, and holds no section. -/
def upService : sectionService Unit (List Section) :=
  { getSections := fun _ => ([], true)
    getSectionByUUID := fun _ _ => (⟨"", "", ⟨[], []⟩, ""⟩, true)
    checkConnectivity := fun _ => none
    getSectionCount := fun _ => 0
    getSectionIds := fun _ => []
    reload := fun _ => (none, ()) }

/-! ## Reading an id listing back -/

/-- The character a one-letter JSON escape stands for. -/
def simpleEscape (e : Char) : Option Char :=
  if e.toNat = 34 ∨ e.toNat = 92 ∨ e.toNat = 47 then some e
  else if e = 'b' then some (Char.ofNat 8)
  else if e = 'f' then some (Char.ofNat 12)
  else if e = 'n' then some (Char.ofNat 10)
  else if e = 'r' then some (Char.ofNat 13)
  else if e = 't' then some (Char.ofNat 9)
  else none

/-- Where the reader of a string literal stands: between characters, right after
a backslash, or inside a `\u` escape with `left` digits to come and the value
`acc` read so far. -/
inductive Mode where
  | plain
  | escape
  | hex (left acc : Nat)
  deriving DecidableEq, Repr

/-- Put a character in front of what the rest of the literal denotes. -/
def consResult (c : Char) : Option (List Char × List Char) → Option (List Char × List Char)
  | some (s, r) => some (c :: s, r)
  | none => none

/-- Read the inside of a JSON string literal up to its closing quote: the
characters it denotes and the input after the quote. -/
def unescapeFrom : Mode → List Char → Option (List Char × List Char)
  | _, [] => none
  | Mode.plain, c :: rest =>
    if c.toNat = 34 then some ([], rest)
    else if c.toNat = 92 then unescapeFrom Mode.escape rest
    else consResult c (unescapeFrom Mode.plain rest)
  | Mode.escape, e :: rest =>
    if e = 'u' then unescapeFrom (Mode.hex 4 0) rest
    else
      match simpleEscape e with
      | some ch => consResult ch (unescapeFrom Mode.plain rest)
      | none => none
  | Mode.hex left acc, x :: rest =>
    match hexVal x with
    | none => none
    | some d =>
      if left ≤ 1 then consResult (Char.ofNat (acc * 16 + d)) (unescapeFrom Mode.plain rest)
      else unescapeFrom (Mode.hex (left - 1) (acc * 16 + d)) rest

/-- The reader started between characters. -/
def unescapeChars (cs : List Char) : Option (List Char × List Char) :=
  unescapeFrom Mode.plain cs

/-- Drop the given prefix from the input; `none` when the input starts otherwise. -/
def dropLeading : List Char → List Char → Option (List Char)
  | [], cs => some cs
  | _ :: _, [] => none
  | p :: ps, c :: cs => if p = c then dropLeading ps cs else none

/-- Read a sequence of lines, each an object with the single string member
`id`, into the ids they carry; `fuel` bounds the number of lines. -/
def readRecords : Nat → List Char → Option (List String)
  | _, [] => some []
  | 0, _ :: _ => none
  | fuel + 1, c :: cs =>
    match dropLeading "\x7b\"id\":\"".data (c :: cs) with
    | none => none
    | some r1 =>
      match unescapeChars r1 with
      | none => none
      | some (s, r2) =>
        match dropLeading "\x7d\n".data r2 with
        | none => none
        | some r3 => (readRecords fuel r3).map fun ids => String.mk s :: ids

/-- The ids a listing carries, line by line. -/
def readIds (text : String) : Option (List String) := readRecords text.length text.data

/-- The listing of a list of ids: per id, in order, the object with the member
`id` followed by a newline. -/
def idRecords : List String → String
  | [] => ""
  | id :: rest => "\x7b\"id\":" ++ appendString id ++ "\x7d\n" ++ idRecords rest

/-! ## Lemmas on the UUID text form -/

theorem hexDigit_isLowerHex (k : Nat) : isLowerHex (hexDigit k) = true := by
  by_cases h : k < 16
  · interval_cases k <;> decide
  · have hlen : hextable.length ≤ k := by simp [hextable]; omega
    rw [hexDigit, List.getD_eq_default _ _ hlen]; decide

theorem stamp_version (y : Nat) : ((y % 256 &&& 0x0f) ||| 0x30) / 16 = 3 := by
  have h : y % 256 < 256 := Nat.mod_lt _ (by norm_num)
  generalize y % 256 = z at h
  interval_cases z <;> decide

theorem md5Sum_shape (msg : List Nat) : ∃ a b c d : Nat,
    md5Sum msg = leBytes 4 a ++ leBytes 4 b ++ leBytes 4 c ++ leBytes 4 d :=
  ⟨_, _, _, _, rfl⟩

/-- Whatever is hashed, `NewMD5` yields sixteen bytes whose text form is
canonical and carries version 3. -/
theorem NewMD5_uuidString (space data : List Nat) :
    isCanonicalUUID (uuidString (NewMD5 space data)) = true
      ∧ uuidVersion (uuidString (NewMD5 space data)) = some 3 := by
  obtain ⟨a, b, c, d, h⟩ := md5Sum_shape (space ++ data)
  have h3 := stamp_version (b / 256 / 256)
  simp only [NewMD5, h]
  simp [leBytes, uuidString, hexEncode, isCanonicalUUID, hexRun, dash, hexDigit_isLowerHex,
    uuidVersion, hexVal, h3]
  decide

/-! ## The transform -/

set_option maxRecDepth 100000 in
/-- C1: the term "Africa Section" with raw id "Nstein_GL_AFTM_GL_164835",
transformed under the taxonomy name "Sections", is exactly the section the test
expects: id, label, the one `tme` entry, the one `uuids` entry and the type. -/
theorem transformSection_africa :
    transformSection { CanonicalName := "Africa Section", RawID := "Nstein_GL_AFTM_GL_164835" }
        "Sections"
      = { UUID := "adb4f804-c3b6-3eca-8708-5edeec653a27"
          PrefLabel := "Africa Section"
          AlternativeIdentifiers :=
            { TME := ["TnN0ZWluX0dMX0FGVE1fR0xfMTY0ODM1-U2VjdGlvbnM="]
              Uuids := ["adb4f804-c3b6-3eca-8708-5edeec653a27"] }
          Type_ := "Section" } := by
  decide

/-- C2, as stated, fails: for the term of the test the `tme` entry is not the
base64 encoding of the single string `rawID + "-" + taxonomyName`. -/
theorem tme_not_encoding_of_concatenation :
    (transformSection { CanonicalName := "Africa Section", RawID := "Nstein_GL_AFTM_GL_164835" }
        "Sections").AlternativeIdentifiers.TME
      ≠ [encodeToString ("Nstein_GL_AFTM_GL_164835" ++ "-" ++ "Sections")] := by
  decide

/-- C2, amended: the single `tme` entry is the base64 encoding of the raw id,
a literal `-`, and the base64 encoding of the taxonomy name, the two parts being
encoded separately; for the raw id and taxonomy name of the test it is the pinned
value. -/
theorem tme_is_joined_encodings (t : term) (taxonomyName : String) :
    (transformSection t taxonomyName).AlternativeIdentifiers.TME
        = [encodeToString t.RawID ++ "-" ++ encodeToString taxonomyName]
      ∧ encodeToString "Nstein_GL_AFTM_GL_164835" ++ "-" ++ encodeToString "Sections"
        = "TnN0ZWluX0dMX0FGVE1fR0xfMTY0ODM1-U2VjdGlvbnM=" := by
  refine ⟨rfl, ?_⟩
  decide

/-- C3: the label is the canonical name, `uuids` is the one-element list of
the section's own id, `tme` has exactly one entry and the type is "Section". -/
theorem transformSection_fields (t : term) (taxonomyName : String) :
    (transformSection t taxonomyName).PrefLabel = t.CanonicalName
      ∧ (transformSection t taxonomyName).AlternativeIdentifiers.Uuids
        = [(transformSection t taxonomyName).UUID]
      ∧ (transformSection t taxonomyName).AlternativeIdentifiers.TME.length = 1
      ∧ (transformSection t taxonomyName).Type_ = "Section" :=
  ⟨rfl, rfl, rfl, rfl⟩

set_option maxRecDepth 100000 in
/-- C4, as stated, fails: the id of the term of the test does not carry
version 5 (its version digit is 3). -/
theorem africa_id_version_not_five :
    uuidVersion (transformSection
        { CanonicalName := "Africa Section", RawID := "Nstein_GL_AFTM_GL_164835" }
        "Sections").UUID ≠ some 5 := by
  decide

set_option maxRecDepth 100000 in
/-- C4, amended: the id is a version-3 (MD5 name-based) UUID in canonical
8-4-4-4-12 text form, computed from the TME identifier, which is built from the
raw id and the taxonomy name; the id of the term of the test is the pinned one. -/
theorem transformSection_id_version_three (t : term) (taxonomyName : String) :
    isCanonicalUUID (transformSection t taxonomyName).UUID = true
      ∧ uuidVersion (transformSection t taxonomyName).UUID = some 3
      ∧ (transformSection t taxonomyName).UUID
        = uuidString (NewMD5 [] (bytesOf (buildTmeIdentifier t.RawID taxonomyName)))
      ∧ uuidString (NewMD5 [] (bytesOf (buildTmeIdentifier "Nstein_GL_AFTM_GL_164835" "Sections")))
        = "adb4f804-c3b6-3eca-8708-5edeec653a27" := by
  refine ⟨?_, ?_, rfl, ?_⟩
  · exact (NewMD5_uuidString [] _).1
  · exact (NewMD5_uuidString [] _).2
  · decide

/-- C5: two terms with the same raw id get, under the same taxonomy name, the
same id and the same `tme` entry, whatever their canonical names; when the
canonical names agree as well, the two sections are equal. -/
theorem transformSection_deterministic (t1 t2 : term) (taxonomyName : String)
    (h : t1.RawID = t2.RawID) :
    (transformSection t1 taxonomyName).UUID = (transformSection t2 taxonomyName).UUID
      ∧ (transformSection t1 taxonomyName).AlternativeIdentifiers.TME
        = (transformSection t2 taxonomyName).AlternativeIdentifiers.TME
      ∧ (t1.CanonicalName = t2.CanonicalName →
          transformSection t1 taxonomyName = transformSection t2 taxonomyName) := by
  refine ⟨?_, ?_, ?_⟩
  · simp [transformSection, h]
  · simp [transformSection, h]
  · intro hn
    simp [transformSection, h, hn]

/-- Witness of C5: two differently labelled terms with one raw id. -/
theorem transformSection_deterministic_witness :
    (transformSection ⟨"Africa Section", "Nstein_GL_AFTM_GL_164835"⟩ "Sections").UUID
        = (transformSection ⟨"Afrique", "Nstein_GL_AFTM_GL_164835"⟩ "Sections").UUID
      ∧ (transformSection ⟨"Africa Section", "Nstein_GL_AFTM_GL_164835"⟩
          "Sections").AlternativeIdentifiers.TME
        = (transformSection ⟨"Afrique", "Nstein_GL_AFTM_GL_164835"⟩
          "Sections").AlternativeIdentifiers.TME :=
  ⟨(transformSection_deterministic ⟨"Africa Section", "Nstein_GL_AFTM_GL_164835"⟩
      ⟨"Afrique", "Nstein_GL_AFTM_GL_164835"⟩ "Sections" rfl).1,
   (transformSection_deterministic ⟨"Africa Section", "Nstein_GL_AFTM_GL_164835"⟩
      ⟨"Afrique", "Nstein_GL_AFTM_GL_164835"⟩ "Sections" rfl).2.1⟩

/-! ## Lemmas on decimal text -/

theorem reads_nil : ∀ a, parseDigits [] a = some (a * 10 ^ ([] : List Nat).length + 0) := by
  intro a; simp [parseDigits]

theorem reads_cons (d : Nat) (hd : d < 10) (l : List Nat) (v : Nat)
    (h : ∀ a, parseDigits l a = some (a * 10 ^ l.length + v)) :
    ∀ a, parseDigits ((48 + d) :: l) a
      = some (a * 10 ^ ((48 + d) :: l).length + (d * 10 ^ l.length + v)) := by
  intro a
  have h1 : 48 ≤ 48 + d ∧ 48 + d ≤ 57 := by omega
  simp only [parseDigits, h1, and_self, if_true, h (10 * a + (48 + d - 48)), List.length_cons]
  congr 1
  have : 48 + d - 48 = d := by omega
  rw [this, pow_succ]; ring

theorem utf8EncodeChar_digit (d : Nat) (hd : d < 10) :
    utf8EncodeChar (Char.ofNat (48 + d)) = [48 + d] := by
  interval_cases d <;> rfl

theorem reads_formatDigits (fuel : Nat) : ∀ (u : Nat) (acc : List Char) (v : Nat),
    u < 10 ^ fuel →
    (∀ a, parseDigits (utf8EncodeChars acc) a = some (a * 10 ^ (utf8EncodeChars acc).length + v)) →
    ∀ a, parseDigits (utf8EncodeChars (formatDigits fuel u acc)) a
      = some (a * 10 ^ (utf8EncodeChars (formatDigits fuel u acc)).length
          + (u * 10 ^ (utf8EncodeChars acc).length + v)) := by
  induction fuel with
  | zero =>
    intro u acc v hu h
    have : u = 0 := by simpa using hu
    subst this
    simpa [formatDigits] using h
  | succ fuel ih =>
    intro u acc v hu h
    unfold formatDigits
    split
    · rename_i hlt
      simp only [utf8EncodeChars, utf8EncodeChar_digit u hlt, List.singleton_append]
      exact reads_cons u hlt _ _ h
    · rename_i hge
      have hmod : u % 10 < 10 := Nat.mod_lt _ (by norm_num)
      have hdiv : u / 10 < 10 ^ fuel := by
        rw [Nat.div_lt_iff_lt_mul (by norm_num)]
        rw [pow_succ] at hu; exact hu
      have h2 : ∀ a, parseDigits (utf8EncodeChars (Char.ofNat (48 + u % 10) :: acc)) a
          = some (a * 10 ^ (utf8EncodeChars (Char.ofNat (48 + u % 10) :: acc)).length
            + (u % 10 * 10 ^ (utf8EncodeChars acc).length + v)) := by
        simp only [utf8EncodeChars, utf8EncodeChar_digit _ hmod, List.singleton_append]
        exact reads_cons _ hmod _ _ h
      have h3 := ih (u / 10) _ _ hdiv h2
      have hlen : (utf8EncodeChars (Char.ofNat (48 + u % 10) :: acc)).length
          = (utf8EncodeChars acc).length + 1 := by
        simp [utf8EncodeChars, utf8EncodeChar_digit _ hmod]
      rw [hlen] at h3
      have harith : u / 10 * 10 ^ ((utf8EncodeChars acc).length + 1)
          + (u % 10 * 10 ^ (utf8EncodeChars acc).length + v)
          = u * 10 ^ (utf8EncodeChars acc).length + v := by
        have hu10 : u = 10 * (u / 10) + u % 10 := (Nat.div_add_mod u 10).symm
        generalize u / 10 = q at *
        generalize u % 10 = r at *
        subst hu10
        rw [pow_succ]; ring
      rw [harith] at h3
      exact h3

theorem formatDigits_head (fuel : Nat) : ∀ (u : Nat) (acc : List Char),
    ∃ d, d < 10 ∧ ∃ tl, formatDigits (fuel + 1) u acc = Char.ofNat (48 + d) :: tl := by
  induction fuel with
  | zero =>
    intro u acc
    unfold formatDigits
    split
    · rename_i hlt
      exact ⟨u, hlt, acc, rfl⟩
    · exact ⟨u % 10, Nat.mod_lt _ (by norm_num), acc, by simp [formatDigits]⟩
  | succ fuel ih =>
    intro u acc
    unfold formatDigits
    split
    · rename_i hlt
      exact ⟨u, hlt, acc, rfl⟩
    · exact ih _ _

theorem parseDigits_formatDigits (n : Nat) :
    parseDigits (utf8EncodeChars (formatDigits (n + 1) n [])) 0 = some n := by
  have hlt : n < 10 ^ (n + 1) :=
    lt_of_lt_of_le (Nat.lt_pow_self (by norm_num) n) (Nat.pow_le_pow_right (by norm_num) (Nat.le_succ n))
  have h := reads_formatDigits (n + 1) n [] 0 hlt reads_nil 0
  simpa [utf8EncodeChars] using h

/-- Reading back what `Itoa` printed gives the integer. -/
theorem parseDecimal_Itoa (i : Int) : parseDecimal (bytesOf (Itoa i)) = some i := by
  obtain ⟨d, hd, tl, htl⟩ := formatDigits_head i.natAbs i.natAbs []
  have hp := parseDigits_formatDigits i.natAbs
  by_cases hneg : i < 0
  · have hb : bytesOf (Itoa i) = 45 :: utf8EncodeChars (formatDigits (i.natAbs + 1) i.natAbs []) := by
      simp [Itoa, hneg, bytesOf, utf8EncodeChars]; rfl
    rw [hb]
    have hne : (utf8EncodeChars (formatDigits (i.natAbs + 1) i.natAbs [])).isEmpty = false := by
      rw [htl]; simp [utf8EncodeChars, utf8EncodeChar_digit d hd]
    simp only [parseDecimal, if_true, hne, hp, Option.map_some', Bool.false_eq_true, if_false,
      Option.some.injEq, Int.ofNat_eq_coe]
    omega
  · have hb : bytesOf (Itoa i) = utf8EncodeChars (formatDigits (i.natAbs + 1) i.natAbs []) := by
      simp [Itoa, hneg, bytesOf]
    rw [hb]
    have hcons : utf8EncodeChars (formatDigits (i.natAbs + 1) i.natAbs [])
        = (48 + d) :: utf8EncodeChars tl := by
      rw [htl]; simp [utf8EncodeChars, utf8EncodeChar_digit d hd]
    have hp2 := hp
    rw [hcons] at hp2 ⊢
    have h45 : ¬ (48 + d = 45) := by omega
    simp only [parseDecimal, h45, if_false, hp2, Option.map_some', Option.some.injEq, Int.ofNat_eq_coe]
    omega

/-! ## Lemmas on the response writer -/

theorem bodyOf_append (l1 l2 : List Call) :
    ResponseWriter.bodyOf (l1 ++ l2) = ResponseWriter.bodyOf l1 ++ ResponseWriter.bodyOf l2 := by
  induction l1 with
  | nil => rfl
  | cons c l ih => cases c <;> simp [ResponseWriter.bodyOf, ih]

theorem codesOf_append (l1 l2 : List Call) :
    ResponseWriter.codesOf (l1 ++ l2) = ResponseWriter.codesOf l1 ++ ResponseWriter.codesOf l2 := by
  induction l1 with
  | nil => rfl
  | cons c l ih => cases c <;> simp [ResponseWriter.codesOf, ih]

theorem headersOf_append (l1 l2 : List Call) :
    ResponseWriter.headersOf (l1 ++ l2)
      = ResponseWriter.headersOf l1 ++ ResponseWriter.headersOf l2 := by
  induction l1 with
  | nil => rfl
  | cons c l ih => cases c <;> simp [ResponseWriter.headersOf, ih]

theorem writeJSONResponse_false {β : Type} (marshal : β → Except String String) (obj : β)
    (w : ResponseWriter) :
    writeJSONResponse marshal obj false w
      = ⟨w.calls ++ [Call.headerAdd "Content-Type" "application/json", Call.writeHeader 404],
          w.pending⟩ := by
  simp [writeJSONResponse, ResponseWriter.HeaderAdd, ResponseWriter.WriteHeader]

/-! ## The handlers -/

/-- C6: with `found = false`, whatever the object and the writer,
`writeJSONResponse` adds the JSON content type, hands 404 to `WriteHeader` and
calls nothing else: no `Write` happens, the body keeps its bytes, the object is
not encoded.  On a writer not yet used the response is 404 with an empty body.
`getSections` and `getSectionByUUID` answer in this way whenever the service
reports `found = false`. -/
theorem writeJSONResponse_not_found {σ α β : Type} (marshal : β → Except String String)
    (obj : β) (w : ResponseWriter) (h : sectionsHandler σ α)
    (marshalAll : α → Except String String) (marshalOne : Section → Except String String)
    (s : σ) (req : Request) :
    writeJSONResponse marshal obj false w
        = ⟨w.calls ++ [Call.headerAdd "Content-Type" "application/json", Call.writeHeader 404],
            w.pending⟩
      ∧ (writeJSONResponse marshal obj false w).statusCodes = w.statusCodes ++ [404]
      ∧ (writeJSONResponse marshal obj false w).body = w.body
      ∧ (w.calls = [] → (writeJSONResponse marshal obj false w).status = 404
          ∧ (writeJSONResponse marshal obj false w).body = [])
      ∧ ((h.service.getSections s).2 = false →
          (h.getSections marshalAll s w req).statusCodes = w.statusCodes ++ [404]
          ∧ (h.getSections marshalAll s w req).body = w.body
          ∧ (w.calls = [] → (h.getSections marshalAll s w req).status = 404
              ∧ (h.getSections marshalAll s w req).body = []))
      ∧ ((h.service.getSectionByUUID s (req.var "uuid")).2 = false →
          (h.getSectionByUUID marshalOne s w req).statusCodes = w.statusCodes ++ [404]
          ∧ (h.getSectionByUUID marshalOne s w req).body = w.body
          ∧ (w.calls = [] → (h.getSectionByUUID marshalOne s w req).status = 404
              ∧ (h.getSectionByUUID marshalOne s w req).body = [])) := by
  have key : ∀ {γ : Type} (m : γ → Except String String) (o : γ),
      (writeJSONResponse m o false w).statusCodes = w.statusCodes ++ [404]
      ∧ (writeJSONResponse m o false w).body = w.body
      ∧ (w.calls = [] → (writeJSONResponse m o false w).status = 404
          ∧ (writeJSONResponse m o false w).body = []) := by
    intro γ m o
    rw [writeJSONResponse_false]
    refine ⟨?_, ?_, ?_⟩
    · simp [ResponseWriter.statusCodes, codesOf_append, ResponseWriter.codesOf]
    · simp [ResponseWriter.body, bodyOf_append, ResponseWriter.bodyOf]
    · intro hw
      simp [ResponseWriter.status, ResponseWriter.body, hw, ResponseWriter.statusOf,
        ResponseWriter.bodyOf]
  refine ⟨writeJSONResponse_false marshal obj w, (key marshal obj).1, (key marshal obj).2.1,
    (key marshal obj).2.2, ?_, ?_⟩
  · intro hf
    have e : h.getSections marshalAll s w req
        = writeJSONResponse marshalAll (h.service.getSections s).1 false w := by
      simp only [sectionsHandler.getSections]
      rw [← hf]
    rw [e]
    exact key marshalAll _
  · intro hf
    have e : h.getSectionByUUID marshalOne s w req
        = writeJSONResponse marshalOne (h.service.getSectionByUUID s (req.var "uuid")).1
            false w := by
      simp only [sectionsHandler.getSectionByUUID]
      rw [← hf]
    rw [e]
    exact key marshalOne _

/-- Witness of C6: the service that finds nothing, on an unused writer. -/
theorem writeJSONResponse_not_found_witness :
    (sectionsHandler.getSections ⟨downService⟩ (fun _ => Except.ok "[]") ()
        (ResponseWriter.fresh []) ⟨[("uuid", "x")]⟩).status = 404
      ∧ (sectionsHandler.getSectionByUUID ⟨downService⟩ (fun _ => Except.ok "{}") ()
        (ResponseWriter.fresh []) ⟨[("uuid", "x")]⟩).body = [] :=
  have h := writeJSONResponse_not_found (fun _ : Unit => Except.ok "null") ()
    (ResponseWriter.fresh []) ⟨downService⟩ (fun _ => Except.ok "[]")
    (fun _ => Except.ok "{}") () ⟨[("uuid", "x")]⟩
  ⟨((h.2.2.2.2.1 rfl).2.2 rfl).1, ((h.2.2.2.2.2 rfl).2.2 rfl).2⟩

/-- C7: the `reload` handler hands 500 to `WriteHeader` exactly when the
service's `reload` returns an error; when it returns `nil` the writer is left as
it was (no status code, no body), so an unused writer stays at the default 200.
The body is never written, and the service state is the one `reload` left. -/
theorem reload_status_500_iff_error {σ α : Type} (h : sectionsHandler σ α) (s : σ)
    (w : ResponseWriter) (req : Request) :
    ((h.reload s w req).2 = w.WriteHeader 500 ↔ (h.service.reload s).1 ≠ none)
      ∧ ((h.reload s w req).2.statusCodes = w.statusCodes ++ [500]
          ↔ (h.service.reload s).1 ≠ none)
      ∧ ((h.service.reload s).1 = none → (h.reload s w req).2 = w)
      ∧ (h.reload s w req).2.body = w.body
      ∧ (w.calls = [] →
          (h.reload s w req).2.status = if (h.service.reload s).1 = none then 200 else 500)
      ∧ (h.reload s w req).1 = (h.service.reload s).2 := by
  by_cases he : (h.service.reload s).1 = none
  · have e : h.reload s w req = ((h.service.reload s).2, w) := by
      simp [sectionsHandler.reload, he]
    rw [e]
    refine ⟨?_, ?_, fun _ => rfl, rfl, ?_, rfl⟩
    · simp only [he, ne_eq, not_true_eq_false, iff_false]
      intro hc
      have := congrArg (fun x => x.calls.length) hc
      simp [ResponseWriter.WriteHeader] at this
    · simp only [he, ne_eq, not_true_eq_false, iff_false]
      intro hc
      have := congrArg List.length hc
      simp at this
    · intro hw
      simp [ResponseWriter.status, hw, ResponseWriter.statusOf, he]
  · have e : h.reload s w req = ((h.service.reload s).2, w.WriteHeader 500) := by
      simp [sectionsHandler.reload, he]
    rw [e]
    refine ⟨?_, ?_, fun hn => absurd hn he, ?_, ?_, rfl⟩
    · simp [he]
    · simp [he, ResponseWriter.statusCodes, ResponseWriter.WriteHeader, codesOf_append,
        ResponseWriter.codesOf]
    · simp [ResponseWriter.body, ResponseWriter.WriteHeader, bodyOf_append,
        ResponseWriter.bodyOf]
    · intro hw
      simp [ResponseWriter.status, ResponseWriter.WriteHeader, hw, ResponseWriter.statusOf, he]

/-- Witness of C7: on an unused writer a failing reload answers 500 and a
reload without error leaves the writer unused. -/
theorem reload_status_500_iff_error_witness :
    (sectionsHandler.reload ⟨downService⟩ () (ResponseWriter.fresh []) ⟨[]⟩).2.status = 500
      ∧ (sectionsHandler.reload ⟨upService⟩ () (ResponseWriter.fresh []) ⟨[]⟩).2
        = ResponseWriter.fresh [] :=
  ⟨(reload_status_500_iff_error ⟨downService⟩ () (ResponseWriter.fresh []) ⟨[]⟩).2.2.2.2.1 rfl,
   (reload_status_500_iff_error ⟨upService⟩ () (ResponseWriter.fresh []) ⟨[]⟩).2.2.1 rfl⟩

/-- C8: `GoodToGo` hands 503 to `WriteHeader` exactly when `checkConnectivity`
returns an error and otherwise leaves the writer as it was; `checker` returns
the ok message with `nil` exactly when `checkConnectivity` returns `nil`, and
otherwise the error message together with that very error. -/
theorem goodToGo_status_503_iff_error {σ α : Type} (h : sectionsHandler σ α) (s : σ)
    (w : ResponseWriter) (req : Request) :
    (h.GoodToGo s w req = w.WriteHeader 503 ↔ h.service.checkConnectivity s ≠ none)
      ∧ ((h.GoodToGo s w req).statusCodes = w.statusCodes ++ [503]
          ↔ h.service.checkConnectivity s ≠ none)
      ∧ (h.service.checkConnectivity s = none → h.GoodToGo s w req = w)
      ∧ (h.checker s = ("Connectivity to TME is ok", none)
          ↔ h.service.checkConnectivity s = none)
      ∧ (∀ err, h.service.checkConnectivity s = some err →
          h.checker s = ("Error connecting to TME", some err)) := by
  have hc2 : (h.checker s).2 = h.service.checkConnectivity s := by
    simp only [sectionsHandler.checker]
    split <;> rfl
  by_cases he : h.service.checkConnectivity s = none
  · have e : h.GoodToGo s w req = w := by
      simp [sectionsHandler.GoodToGo, hc2, he]
    rw [e]
    refine ⟨?_, ?_, fun _ => rfl, ?_, ?_⟩
    · simp only [he, ne_eq, not_true_eq_false, iff_false]
      intro hc
      have := congrArg (fun x => x.calls.length) hc
      simp [ResponseWriter.WriteHeader] at this
    · simp only [he, ne_eq, not_true_eq_false, iff_false]
      intro hc
      have := congrArg List.length hc
      simp at this
    · simp [sectionsHandler.checker, he]
    · intro err herr
      rw [he] at herr
      cases herr
  · have e : h.GoodToGo s w req = w.WriteHeader 503 := by
      simp [sectionsHandler.GoodToGo, hc2, he]
    rw [e]
    refine ⟨?_, ?_, fun hn => absurd hn he, ?_, ?_⟩
    · simp [he]
    · simp [he, ResponseWriter.statusCodes, ResponseWriter.WriteHeader, codesOf_append,
        ResponseWriter.codesOf]
    · simp [sectionsHandler.checker, he]
    · intro err herr
      simp [sectionsHandler.checker, herr]

/-- Witness of C8: with TME unreachable `checker` hands the error on; with TME
reachable `GoodToGo` leaves the writer unused. -/
theorem goodToGo_status_503_iff_error_witness :
    sectionsHandler.checker ⟨downService⟩ ()
        = ("Error connecting to TME", some "connection refused")
      ∧ sectionsHandler.GoodToGo ⟨upService⟩ () (ResponseWriter.fresh []) ⟨[]⟩
        = ResponseWriter.fresh [] :=
  ⟨(goodToGo_status_503_iff_error ⟨downService⟩ () (ResponseWriter.fresh []) ⟨[]⟩).2.2.2.2
      "connection refused" rfl,
   (goodToGo_status_503_iff_error ⟨upService⟩ () (ResponseWriter.fresh []) ⟨[]⟩).2.2.1 rfl⟩

theorem utf8EncodeChars_append (l1 l2 : List Char) :
    utf8EncodeChars (l1 ++ l2) = utf8EncodeChars l1 ++ utf8EncodeChars l2 := by
  induction l1 with
  | nil => rfl
  | cons c l ih => simp [utf8EncodeChars, ih]

theorem bytesOf_append (a b : String) : bytesOf (a ++ b) = bytesOf a ++ bytesOf b := by
  simp [bytesOf, utf8EncodeChars_append]

theorem write_ok (w : ResponseWriter) (p : List Nat) (h : (w.Write p).2 = none) :
    (w.Write p).1 = ⟨w.calls ++ [Call.write p p.length none], w.pending.tail⟩ := by
  unfold ResponseWriter.Write at h ⊢
  split <;> simp_all

theorem write_err (w : ResponseWriter) (p : List Nat) (h : (w.Write p).2 ≠ none) :
    ∃ n e, (w.Write p).2 = some e ∧ n ≤ p.length
      ∧ (w.Write p).1 = ⟨w.calls ++ [Call.write p n (some e)], w.pending.tail⟩ := by
  obtain ⟨calls, pending⟩ := w
  cases pending with
  | nil => simp [ResponseWriter.Write] at h
  | cons o rest =>
    cases o with
    | none => simp [ResponseWriter.Write] at h
    | some ne =>
      obtain ⟨n, e⟩ := ne
      exact ⟨min n p.length, e, rfl, Nat.min_le_right _ _, rfl⟩

/-- C10: `getCount` hands `Write` exactly the decimal text of the count that
`strconv.Itoa` prints (for 0 the text "0"), and reading that text as a decimal
integer gives the count back.  When the write succeeds these bytes are what the
body gains and no status code is written; 500 is handed to `WriteHeader`
exactly when the write returns an error. -/
theorem getCount_writes_decimal {σ α : Type} (h : sectionsHandler σ α) (s : σ)
    (w : ResponseWriter) (req : Request) :
    (∃ n err, (h.getCount s w req).calls
        = w.calls ++ Call.write (bytesOf (Itoa (h.service.getSectionCount s))) n err
            :: (if err = none then [] else [Call.writeHeader 500]))
      ∧ parseDecimal (bytesOf (Itoa (h.service.getSectionCount s)))
          = some (h.service.getSectionCount s)
      ∧ Itoa 0 = "0"
      ∧ ((w.Write (bytesOf (Itoa (h.service.getSectionCount s)))).2 = none →
          (h.getCount s w req).body = w.body ++ bytesOf (Itoa (h.service.getSectionCount s))
          ∧ (h.getCount s w req).statusCodes = w.statusCodes
          ∧ (w.calls = [] →
              parseDecimal (h.getCount s w req).body = some (h.service.getSectionCount s)
              ∧ (h.getCount s w req).status = 200))
      ∧ ((h.getCount s w req).statusCodes = w.statusCodes ++ [500]
          ↔ (w.Write (bytesOf (Itoa (h.service.getSectionCount s)))).2 ≠ none) := by
  have hparse := parseDecimal_Itoa (h.service.getSectionCount s)
  generalize hp : bytesOf (Itoa (h.service.getSectionCount s)) = p at hparse ⊢
  have hdef : h.getCount s w req
      = match w.Write p with
        | (writer, some _) => writer.WriteHeader 500
        | (writer, none) => writer := by
    simp only [sectionsHandler.getCount, hp]
  by_cases hw : (w.Write p).2 = none
  · have h1 := write_ok w p hw
    have e : h.getCount s w req = ⟨w.calls ++ [Call.write p p.length none], w.pending.tail⟩ := by
      rw [hdef, ← h1]
      generalize w.Write p = r at hw
      obtain ⟨r1, r2⟩ := r
      simp only at hw
      subst hw
      rfl
    rw [e]
    refine ⟨⟨p.length, none, by simp⟩, hparse, by decide, ?_, ?_⟩
    · intro _
      refine ⟨?_, ?_, ?_⟩
      · simp [ResponseWriter.body, bodyOf_append, ResponseWriter.bodyOf]
      · simp [ResponseWriter.statusCodes, codesOf_append, ResponseWriter.codesOf]
      · intro hc
        simp [ResponseWriter.body, ResponseWriter.status, hc, ResponseWriter.bodyOf,
          ResponseWriter.statusOf, hparse]
    · simp only [hw, ne_eq, not_true_eq_false, iff_false]
      intro hc
      have := congrArg List.length hc
      simp [ResponseWriter.statusCodes, codesOf_append, ResponseWriter.codesOf] at this
  · obtain ⟨n, e, he, _, h1⟩ := write_err w p hw
    have e2 : h.getCount s w req
        = ⟨w.calls ++ [Call.write p n (some e), Call.writeHeader 500], w.pending.tail⟩ := by
      rw [hdef]
      generalize w.Write p = r at he h1
      obtain ⟨r1, r2⟩ := r
      simp only at he h1
      subst he h1
      simp [ResponseWriter.WriteHeader]
    rw [e2]
    refine ⟨⟨n, some e, by simp⟩, hparse, by decide, fun hn => absurd hn hw, ?_⟩
    simp [hw, ResponseWriter.statusCodes, codesOf_append, ResponseWriter.codesOf]

/-- Witness of C10: on an unused writer whose writes succeed, twelve sections
give the body "12" and no section gives the body "0". -/
theorem getCount_writes_decimal_witness :
    (sectionsHandler.getCount ⟨downService⟩ () (ResponseWriter.fresh []) ⟨[]⟩).body
        = bytesOf "12"
      ∧ parseDecimal (sectionsHandler.getCount ⟨downService⟩ ()
          (ResponseWriter.fresh []) ⟨[]⟩).body = some 12
      ∧ (sectionsHandler.getCount ⟨upService⟩ () (ResponseWriter.fresh []) ⟨[]⟩).body
        = bytesOf "0" :=
  have h := (getCount_writes_decimal ⟨downService⟩ () (ResponseWriter.fresh []) ⟨[]⟩).2.2.2.1 rfl
  have h0 := (getCount_writes_decimal ⟨upService⟩ () (ResponseWriter.fresh []) ⟨[]⟩).2.2.2.1 rfl
  ⟨h.1.trans (by decide), (h.2.2 rfl).1, h0.1.trans (by decide)⟩

/-! ## The id listing -/

theorem getIdsStep_err (e : String) (w : ResponseWriter) (id : String) :
    getIdsStep (⟨some e⟩, w) id = (⟨some e⟩, w) := rfl

theorem getIds_fold_err (ids : List String) (e : String) (w : ResponseWriter) :
    ids.foldl getIdsStep (⟨some e⟩, w) = (⟨some e⟩, w) := by
  induction ids with
  | nil => rfl
  | cons id rest ih => simp [List.foldl, getIdsStep_err, ih]

theorem getIdsStep_ok (w : ResponseWriter) (id : String)
    (h : (w.Write (bytesOf (marshalSectionID id) ++ [10])).2 = none) :
    getIdsStep (⟨none⟩, w) id
      = (⟨none⟩, ⟨w.calls ++ [Call.write (bytesOf (marshalSectionID id) ++ [10])
          (bytesOf (marshalSectionID id) ++ [10]).length none], w.pending.tail⟩) := by
  have h1 := write_ok w _ h
  simp only [getIdsStep, Encoder.Encode]
  generalize w.Write (bytesOf (marshalSectionID id) ++ [10]) = r at h h1
  obtain ⟨r1, r2⟩ := r
  simp only at h h1
  subst h h1
  rfl

theorem getIdsStep_fail (w : ResponseWriter) (id : String)
    (h : (w.Write (bytesOf (marshalSectionID id) ++ [10])).2 ≠ none) :
    ∃ n e, n ≤ (bytesOf (marshalSectionID id) ++ [10]).length
      ∧ getIdsStep (⟨none⟩, w) id
        = (⟨some e⟩, ⟨w.calls ++ [Call.write (bytesOf (marshalSectionID id) ++ [10]) n (some e)],
            w.pending.tail⟩) := by
  obtain ⟨n, e, he, hn, h1⟩ := write_err w _ h
  refine ⟨n, e, hn, ?_⟩
  simp only [getIdsStep, Encoder.Encode]
  generalize w.Write (bytesOf (marshalSectionID id) ++ [10]) = r at he h1
  obtain ⟨r1, r2⟩ := r
  simp only at he h1
  subst he h1
  rfl

theorem write_ok_iff (w : ResponseWriter) (p : List Nat) :
    (w.Write p).2 = none ↔ ∀ o ∈ w.pending.take 1, o = none := by
  obtain ⟨calls, pending⟩ := w
  cases pending with
  | nil => simp [ResponseWriter.Write]
  | cons o rest =>
    cases o with
    | none => simp [ResponseWriter.Write]
    | some ne => obtain ⟨n, e⟩ := ne; simp [ResponseWriter.Write]

/-- When the next writes all succeed, the loop of `getIds` issues one `Write` per
id, in order, each carrying the whole record. -/
theorem getIds_fold_ok (ids : List String) : ∀ (w : ResponseWriter),
    (∀ o ∈ w.pending.take ids.length, o = none) →
    ids.foldl getIdsStep (⟨none⟩, w)
      = (⟨none⟩, ⟨w.calls ++ ids.map (fun id =>
          Call.write (bytesOf (marshalSectionID id) ++ [10])
            (bytesOf (marshalSectionID id) ++ [10]).length none),
          w.pending.drop ids.length⟩) := by
  induction ids with
  | nil => intro w _; simp
  | cons id rest ih =>
    intro w hw
    have h1 : (w.Write (bytesOf (marshalSectionID id) ++ [10])).2 = none := by
      rw [write_ok_iff]
      intro o ho
      apply hw o
      exact List.take_subset_take_left _ (by simp) ho
    rw [List.foldl, getIdsStep_ok w id h1, ih]
    · simp [List.drop_succ_cons, List.tail_drop]
    · intro o ho
      apply hw o
      simp only at ho
      cases hp : w.pending with
      | nil => simp [hp] at ho
      | cons o1 rest1 =>
        rw [hp] at ho
        simp only [List.tail_cons] at ho
        simp [List.take_succ_cons, ho]

/-- Whatever the writes do, what the loop of `getIds` adds to the body is an
initial part of the records in order, and no status code or header is added. -/
theorem getIds_fold_initial (ids : List String) : ∀ (w : ResponseWriter),
    ∃ k, (ids.foldl getIdsStep (⟨none⟩, w)).2.body
        = w.body ++ ((ids.map fun id => bytesOf (marshalSectionID id) ++ [10]).flatten).take k
      ∧ (ids.foldl getIdsStep (⟨none⟩, w)).2.statusCodes = w.statusCodes
      ∧ (ids.foldl getIdsStep (⟨none⟩, w)).2.header = w.header := by
  induction ids with
  | nil => intro w; exact ⟨0, by simp, rfl, rfl⟩
  | cons id rest ih =>
    intro w
    by_cases h1 : (w.Write (bytesOf (marshalSectionID id) ++ [10])).2 = none
    · rw [List.foldl, getIdsStep_ok w id h1]
      obtain ⟨k, hk, hc, hh⟩ := ih ⟨w.calls ++ [Call.write (bytesOf (marshalSectionID id) ++ [10])
          (bytesOf (marshalSectionID id) ++ [10]).length none], w.pending.tail⟩
      refine ⟨(bytesOf (marshalSectionID id) ++ [10]).length + k, ?_, ?_, ?_⟩
      · rw [hk]
        simp only [List.map_cons, List.flatten_cons]
        rw [List.take_append]
        simp only [ResponseWriter.body, bodyOf_append, ResponseWriter.bodyOf, List.take_length,
          List.append_nil, List.append_assoc]
      · rw [hc]
        simp [ResponseWriter.statusCodes, codesOf_append, ResponseWriter.codesOf]
      · rw [hh]
        simp [ResponseWriter.header, headersOf_append, ResponseWriter.headersOf]
    · obtain ⟨n, e, hn, hs⟩ := getIdsStep_fail w id h1
      rw [List.foldl, hs, getIds_fold_err]
      refine ⟨n, ?_, ?_, ?_⟩
      · simp only [List.map_cons, List.flatten_cons]
        rw [List.take_append_of_le_length hn]
        simp [ResponseWriter.body, bodyOf_append, ResponseWriter.bodyOf]
      · simp [ResponseWriter.statusCodes, codesOf_append, ResponseWriter.codesOf]
      · simp [ResponseWriter.header, headersOf_append, ResponseWriter.headersOf]

theorem appendChars_safe (cs : List Char) (h : ∀ c ∈ cs, htmlSafeSet c = true) :
    appendChars cs = cs := by
  induction cs with
  | nil => rfl
  | cons c rest ih =>
    have hc : htmlSafeSet c = true := h c (by simp)
    have hlt : c.toNat < 0x80 := by
      simp only [htmlSafeSet, decide_eq_true_eq] at hc
      exact hc.2.1
    have hr := ih (fun d hd => h d (by simp [hd]))
    simp [appendChars, appendChar, hc, hlt, hr]

theorem bodyOf_writes (ps : List (List Nat)) :
    ResponseWriter.bodyOf (ps.map fun p => Call.write p p.length none) = ps.flatten := by
  induction ps with
  | nil => rfl
  | cons p rest ih => simp [ResponseWriter.bodyOf, ih]

theorem record_bytes (id : String) :
    bytesOf ("\x7b\"id\":" ++ appendString id ++ "\x7d\n") = bytesOf (marshalSectionID id) ++ [10] := by
  have h : ("\x7d\n" : String) = "\x7d" ++ "\n" := by decide
  rw [h, ← String.append_assoc, bytesOf_append]
  rfl

theorem hexVal_hexDigit (k : Nat) (h : k < 16) : hexVal (hexDigit k) = some k := by
  interval_cases k <;> decide

theorem unescapeChars_plain (c : Char) (rest : List Char) (h1 : c.toNat ≠ 34)
    (h2 : c.toNat ≠ 92) :
    unescapeFrom Mode.plain (c :: rest) = consResult c (unescapeFrom Mode.plain rest) := by
  simp [unescapeFrom, h1, h2]

theorem unescapeChars_simple (e ch : Char) (rest : List Char) (hu : e ≠ 'u')
    (hs : simpleEscape e = some ch) :
    unescapeFrom Mode.plain (Char.ofNat 92 :: e :: rest)
      = consResult ch (unescapeFrom Mode.plain rest) := by
  have h92 : (Char.ofNat 92).toNat = 92 := rfl
  simp [unescapeFrom, h92, hu, hs]

theorem unescapeChars_hex (x1 x2 x3 x4 : Char) (v1 v2 v3 v4 : Nat) (rest : List Char)
    (h1 : hexVal x1 = some v1) (h2 : hexVal x2 = some v2) (h3 : hexVal x3 = some v3)
    (h4 : hexVal x4 = some v4) :
    unescapeFrom Mode.plain (Char.ofNat 92 :: 'u' :: x1 :: x2 :: x3 :: x4 :: rest)
      = consResult (Char.ofNat (((v1 * 16 + v2) * 16 + v3) * 16 + v4))
          (unescapeFrom Mode.plain rest) := by
  have h92 : (Char.ofNat 92).toNat = 92 := rfl
  simp [unescapeFrom, h92, h1, h2, h3, h4]

theorem char_eq_of_toNat (c : Char) (n : Nat) (h : c.toNat = n) : Char.ofNat n = c := by
  rw [← h]; exact Char.ofNat_toNat c

theorem unescapeChars_appendChar (c : Char) (rest : List Char) :
    unescapeFrom Mode.plain (appendChar c ++ rest)
      = consResult c (unescapeFrom Mode.plain rest) := by
  unfold appendChar
  simp only
  split
  · rename_i hlt
    split
    · rename_i hs
      simp only [htmlSafeSet, decide_eq_true_eq] at hs
      exact unescapeChars_plain c rest hs.2.2.1 hs.2.2.2.2.2.2
    · split
      · rename_i hq
        have hu : c ≠ 'u' := by
          intro hc; subst hc; revert hq; decide
        have hs : simpleEscape c = some c := by
          simp only [simpleEscape]
          rcases hq with hq | hq <;> simp [hq]
        exact unescapeChars_simple c c rest hu hs
      · split
        · rename_i h8
          rw [← char_eq_of_toNat c 8 h8]
          exact unescapeChars_simple 'b' _ rest (by decide) (by decide)
        · split
          · rename_i h8
            rw [← char_eq_of_toNat c 12 h8]
            exact unescapeChars_simple 'f' _ rest (by decide) (by decide)
          · split
            · rename_i h8
              rw [← char_eq_of_toNat c 10 h8]
              exact unescapeChars_simple 'n' _ rest (by decide) (by decide)
            · split
              · rename_i h8
                rw [← char_eq_of_toNat c 13 h8]
                exact unescapeChars_simple 'r' _ rest (by decide) (by decide)
              · split
                · rename_i h8
                  rw [← char_eq_of_toNat c 9 h8]
                  exact unescapeChars_simple 't' _ rest (by decide) (by decide)
                · have hd : c.toNat / 16 < 16 := by omega
                  have hm : c.toNat % 16 < 16 := Nat.mod_lt _ (by norm_num)
                  have := unescapeChars_hex '0' '0' (hexDigit (c.toNat / 16))
                    (hexDigit (c.toNat % 16)) 0 0 (c.toNat / 16) (c.toNat % 16) rest
                    (by decide) (by decide) (hexVal_hexDigit _ hd) (hexVal_hexDigit _ hm)
                  have hv : ((0 * 16 + 0) * 16 + c.toNat / 16) * 16 + c.toNat % 16 = c.toNat := by
                    omega
                  rw [hv, Char.ofNat_toNat] at this
                  exact this
  · split
    · rename_i hq
      have hm : c.toNat % 16 < 16 := Nat.mod_lt _ (by norm_num)
      have := unescapeChars_hex '2' '0' '2' (hexDigit (c.toNat % 16)) 2 0 2 (c.toNat % 16) rest
        (by decide) (by decide) (by decide) (hexVal_hexDigit _ hm)
      have hv : ((2 * 16 + 0) * 16 + 2) * 16 + c.toNat % 16 = c.toNat := by
        rcases hq with hq | hq <;> omega
      rw [hv, Char.ofNat_toNat] at this
      exact this
    · rename_i hge hq
      exact unescapeChars_plain c rest (by omega) (by omega)

theorem unescapeChars_appendChars (cs rest : List Char) :
    unescapeChars (appendChars cs ++ Char.ofNat 34 :: rest) = some (cs, rest) := by
  unfold unescapeChars
  induction cs with
  | nil =>
    have h34 : (Char.ofNat 34).toNat = 34 := rfl
    simp [appendChars, unescapeFrom, h34]
  | cons c cs ih =>
    rw [appendChars, List.append_assoc, unescapeChars_appendChar, ih]
    rfl

theorem dropLeading_append (p cs : List Char) : dropLeading p (p ++ cs) = some cs := by
  induction p with
  | nil => cases cs <;> rfl
  | cons a p ih => simp [dropLeading, ih]

theorem idRecords_cons_data (id : String) (rest : List String) :
    (idRecords (id :: rest)).data
      = "\x7b\"id\":\"".data ++ (appendChars id.data
          ++ Char.ofNat 34 :: ("\x7d\n".data ++ (idRecords rest).data)) := by
  simp only [idRecords, appendString, String.data_append]
  simp

theorem readRecords_idRecords (ids : List String) : ∀ fuel, ids.length ≤ fuel →
    readRecords fuel (idRecords ids).data = some ids := by
  induction ids with
  | nil => intro fuel _; cases fuel <;> rfl
  | cons id rest ih =>
    intro fuel hf
    obtain ⟨f, rfl⟩ : ∃ f, fuel = f + 1 := ⟨fuel - 1, by simp at hf; omega⟩
    have hrest := ih f (by simp at hf; omega)
    rw [idRecords_cons_data]
    have hne : ∃ c cs, "\x7b\"id\":\"".data ++ (appendChars id.data
          ++ Char.ofNat 34 :: ("\x7d\n".data ++ (idRecords rest).data)) = c :: cs :=
      ⟨_, _, rfl⟩
    obtain ⟨c, cs, hc⟩ := hne
    rw [hc, readRecords, ← hc, dropLeading_append]
    simp only [unescapeChars_appendChars, dropLeading_append, hrest, Option.map_some']

theorem length_le_idRecords (ids : List String) : ids.length ≤ (idRecords ids).length := by
  induction ids with
  | nil => simp
  | cons id rest ih =>
    simp only [idRecords, String.length_append, List.length_cons]
    have : 1 ≤ ("\x7d\n" : String).length := by decide
    omega

/-- Reading a listing back gives the ids, each once and in order. -/
theorem readIds_idRecords (ids : List String) : readIds (idRecords ids) = some ids :=
  readRecords_idRecords ids _ (length_le_idRecords ids)

theorem bytesOf_idRecords (ids : List String) :
    bytesOf (idRecords ids)
      = (ids.map fun id => bytesOf (marshalSectionID id) ++ [10]).flatten := by
  induction ids with
  | nil => rfl
  | cons id rest ih =>
    rw [idRecords, bytesOf_append, record_bytes, ih]
    simp

/-- C9: `getIds` always adds the content type `text/plain`.  For an empty id
list it hands 200 to `WriteHeader` and writes no body.  Otherwise it issues one
`Write` per id, in the service's order, each carrying the object with the member
`id` and a newline; when every write succeeds the body gains exactly the listing
of the ids, as many records as ids, and reading the listing back gives the ids
each once and in order; whatever the writes do, the body gains an initial part of
that listing.  For an id of characters that need no escape the object is the
literal text with the id between the quotes. -/
theorem getIds_emits_records {σ α : Type} (h : sectionsHandler σ α) (s : σ)
    (w : ResponseWriter) (req : Request) :
    (h.getIds s w req).header = w.header ++ [("Content-Type", "text/plain")]
      ∧ (h.service.getSectionIds s = [] →
          h.getIds s w req
            = ⟨w.calls ++ [Call.headerAdd "Content-Type" "text/plain", Call.writeHeader 200],
                w.pending⟩
          ∧ (h.getIds s w req).statusCodes = w.statusCodes ++ [200]
          ∧ (h.getIds s w req).body = w.body
          ∧ (w.calls = [] → (h.getIds s w req).status = 200 ∧ (h.getIds s w req).body = []))
      ∧ (h.service.getSectionIds s ≠ [] →
          (∀ o ∈ w.pending.take (h.service.getSectionIds s).length, o = none) →
          (h.getIds s w req).calls
            = w.calls ++ Call.headerAdd "Content-Type" "text/plain"
                :: (h.service.getSectionIds s).map (fun id =>
                  Call.write (bytesOf ("\x7b\"id\":" ++ appendString id ++ "\x7d\n"))
                    (bytesOf ("\x7b\"id\":" ++ appendString id ++ "\x7d\n")).length none))
      ∧ ((∀ o ∈ w.pending.take (h.service.getSectionIds s).length, o = none) →
          (h.getIds s w req).body = w.body ++ bytesOf (idRecords (h.service.getSectionIds s)))
      ∧ readIds (idRecords (h.service.getSectionIds s)) = some (h.service.getSectionIds s)
      ∧ (∃ k, (h.getIds s w req).body
          = w.body ++ (bytesOf (idRecords (h.service.getSectionIds s))).take k)
      ∧ (∀ id : String, (∀ c ∈ id.data, htmlSafeSet c = true) →
          "\x7b\"id\":" ++ appendString id ++ "\x7d\n" = "\x7b\"id\":\"" ++ id ++ "\"\x7d\n") := by
  have hsafe : ∀ id : String, (∀ c ∈ id.data, htmlSafeSet c = true) →
      "\x7b\"id\":" ++ appendString id ++ "\x7d\n" = "\x7b\"id\":\"" ++ id ++ "\"\x7d\n" := by
    intro id hid
    apply String.ext
    simp only [String.data_append, appendString, appendChars_safe id.data hid]
    simp
  generalize hids : h.service.getSectionIds s = ids
  have hw0 : w.HeaderAdd "Content-Type" "text/plain"
      = ⟨w.calls ++ [Call.headerAdd "Content-Type" "text/plain"], w.pending⟩ := rfl
  cases ids with
  | nil =>
    have e : h.getIds s w req
        = ⟨w.calls ++ [Call.headerAdd "Content-Type" "text/plain", Call.writeHeader 200],
            w.pending⟩ := by
      simp [sectionsHandler.getIds, hids, ResponseWriter.HeaderAdd, ResponseWriter.WriteHeader]
    rw [e]
    refine ⟨?_, fun _ => ⟨rfl, ?_, ?_, ?_⟩, fun hne => absurd rfl hne, fun _ => ?_, rfl,
      ⟨0, ?_⟩, hsafe⟩
    · simp [ResponseWriter.header, headersOf_append, ResponseWriter.headersOf]
    · simp [ResponseWriter.statusCodes, codesOf_append, ResponseWriter.codesOf]
    · simp [ResponseWriter.body, bodyOf_append, ResponseWriter.bodyOf]
    · intro hc
      simp [ResponseWriter.status, ResponseWriter.body, hc, ResponseWriter.statusOf,
        ResponseWriter.bodyOf]
    · simp [ResponseWriter.body, bodyOf_append, ResponseWriter.bodyOf, idRecords, bytesOf,
        utf8EncodeChars]
    · simp [ResponseWriter.body, bodyOf_append, ResponseWriter.bodyOf]
  | cons id rest =>
    have e : h.getIds s w req
        = ((id :: rest).foldl getIdsStep
            (⟨none⟩, ⟨w.calls ++ [Call.headerAdd "Content-Type" "text/plain"], w.pending⟩)).2 := by
      simp [sectionsHandler.getIds, hids, ResponseWriter.HeaderAdd, NewEncoder]
    have hbody0 : (⟨w.calls ++ [Call.headerAdd "Content-Type" "text/plain"], w.pending⟩ :
        ResponseWriter).body = w.body := by
      simp [ResponseWriter.body, bodyOf_append, ResponseWriter.bodyOf]
    have hrec : (fun i : String => Call.write (bytesOf (marshalSectionID i) ++ [10])
          (bytesOf (marshalSectionID i) ++ [10]).length none)
        = (fun i : String => Call.write (bytesOf ("\x7b\"id\":" ++ appendString i ++ "\x7d\n"))
          (bytesOf ("\x7b\"id\":" ++ appendString i ++ "\x7d\n")).length none) := by
      funext i; rw [record_bytes]
    obtain ⟨k, hk, _, hh⟩ := getIds_fold_initial (id :: rest)
      ⟨w.calls ++ [Call.headerAdd "Content-Type" "text/plain"], w.pending⟩
    rw [e]
    refine ⟨?_, fun hn => List.noConfusion hn, fun _ hall => ?_, fun hall => ?_,
      readIds_idRecords _, ⟨k, ?_⟩, hsafe⟩
    · rw [hh]
      simp [ResponseWriter.header, headersOf_append, ResponseWriter.headersOf]
    · rw [getIds_fold_ok (id :: rest)
        ⟨w.calls ++ [Call.headerAdd "Content-Type" "text/plain"], w.pending⟩ hall, hrec]
      simp
    · rw [getIds_fold_ok (id :: rest)
        ⟨w.calls ++ [Call.headerAdd "Content-Type" "text/plain"], w.pending⟩ hall]
      simp only [ResponseWriter.body, bodyOf_append, ResponseWriter.bodyOf, List.append_nil,
        bytesOf_idRecords]
      rw [← bodyOf_writes, List.map_map]
      rfl
    · rw [hk, hbody0, bytesOf_idRecords]

/-- Witness of C9: on an unused writer whose writes succeed, two ids, one of
them with a quote in it, give two records in order; no id gives 200 and an
empty body. -/
theorem getIds_emits_records_witness :
    (sectionsHandler.getIds ⟨downService⟩ () (ResponseWriter.fresh []) ⟨[]⟩).body
        = bytesOf ("\x7b\"id\":\"adb4f804-c3b6-3eca-8708-5edeec653a27\"\x7d\n"
            ++ "\x7b\"id\":\"a\\\"b\"\x7d\n")
      ∧ (sectionsHandler.getIds ⟨upService⟩ () (ResponseWriter.fresh []) ⟨[]⟩).status = 200
      ∧ (sectionsHandler.getIds ⟨upService⟩ () (ResponseWriter.fresh []) ⟨[]⟩).body = [] :=
  have h := (getIds_emits_records ⟨downService⟩ () (ResponseWriter.fresh []) ⟨[]⟩).2.2.2.1
    (by decide)
  have h0 := ((getIds_emits_records ⟨upService⟩ () (ResponseWriter.fresh []) ⟨[]⟩).2.1
    rfl).2.2.2 rfl
  ⟨h.trans (by decide), h0.1, h0.2⟩

end SectionsTransformer
